import Mathlib

/-!
Verification development for the medical amount-detection pipeline
(`app.py`, class `AmountDetectionService`).

The Python source is shallowly embedded here:
* strings are handled as `String` / `List Char`;
* Python `float` values are modelled exactly as rationals `ℚ` (the decimal
  literals occurring in the pipeline are all exactly representable; the
  binary rounding of IEEE doubles is idealised away, and `float("inf")`,
  `float("nan")` and underscore separators are modelled as parse failures —
  no property below depends on those corners);
* the two external collaborators (the OCR engine `pytesseract` and the
  Gemini model) plus the JSON decoder `json.loads` are parameters of the
  pipeline, gathered in the structure `Collab`;
* fallible code returns `Except String`.

Regex use in the source is compiled by hand into explicit scanners; each
definition carries a comment naming the Python line(s) it embeds.
-/

namespace AmountDetection

/-- Whitespace as stripped by Python `str.strip()` (ASCII / Latin-1 range of
`str.isspace`; the rarely used wide-unicode spaces are omitted — every claim
below concerns ASCII text). -/
def pySpaceChars : List Char :=
  [' ', '\t', '\n', '\r', '\x0b', '\x0c', '\x1c', '\x1d', '\x1e', '\x1f', '\x85', '\xa0']

/-- Membership in the Python whitespace set. -/
def isPySpace (c : Char) : Bool := decide (c ∈ pySpaceChars)

/-- Python `str.strip()` on a character list. -/
def pyStrip (l : List Char) : List Char :=
  ((l.dropWhile isPySpace).reverse.dropWhile isPySpace).reverse

/-- Python `ch in s` for a single character. -/
def containsChar (ch : Char) : List Char → Bool
  | [] => false
  | c :: t => c = ch || containsChar ch t

/-- Python `needle in hay` (substring test); also models an unanchored
`re.search` for a literal pattern. -/
def isSubstr (n : List Char) : List Char → Bool
  | [] => n.isEmpty
  | c :: t => n.isPrefixOf (c :: t) || isSubstr n t

/-- Existence of a match of the regex `x.*?y` inside one newline-free
segment: some occurrence of `x` followed (not overlapping) by an occurrence
of `y`.  The lazy `.*?` only affects which match is found, not whether one
exists. -/
def seqSub (x y : List Char) : List Char → Bool
  | [] => x.isPrefixOf ([] : List Char) && isSubstr y []
  | c :: t => (x.isPrefixOf (c :: t) && isSubstr y (List.drop x.length (c :: t))) || seqSub x y t

/-- Python `text.split('\n')`. -/
def splitNL : List Char → List (List Char)
  | [] => [[]]
  | c :: t =>
    if c = '\n' then [] :: splitNL t
    else
      match splitNL t with
      | [] => [[c]]
      | l :: ls => (c :: l) :: ls

/-- Numeric value of a digit character. -/
def digitVal (c : Char) : Nat := c.toNat - 48

/-- Value of a digit string read in base 10. -/
def natOf (l : List Char) : Nat := l.foldl (fun n c => 10 * n + digitVal c) 0

/-- Python truthiness of an optional string argument (`if not text`). -/
def pyTruthyStr : Option String → Bool
  | none => false
  | some s => !(s == "")

/-- Python truthiness of an optional bytes argument (`if image_data`). -/
def pyTruthyBytes : Option (List Nat) → Bool
  | none => false
  | some b => !b.isEmpty

/-- Leading sign of a numeric literal: returns (negative?, rest). -/
def stripSign : List Char → Bool × List Char
  | [] => (false, [])
  | c :: r =>
    if c = '+' then (false, r)
    else if c = '-' then (true, r)
    else (false, c :: r)

/-- Exponent part of a float literal (after the `e`/`E`): models the tail of
Python `float(...)`. -/
def parseExp (mant : ℚ) (r : List Char) : Option ℚ :=
  let sg := stripSign r
  let ds := sg.2.takeWhile Char.isDigit
  if ds.isEmpty then none
  else if !(sg.2.dropWhile Char.isDigit).isEmpty then none
  else some (if sg.1 then mant / 10 ^ natOf ds else mant * 10 ^ natOf ds)

/-- Fractional part of a float literal: a leading `.` consumes the digits
following it (possibly none, as in `5.`); anything else is left alone. -/
def fracSplit : List Char → List Char × List Char
  | [] => ([], [])
  | c :: u =>
    if c = '.' then (u.takeWhile Char.isDigit, u.dropWhile Char.isDigit)
    else ([], c :: u)

/-- Unsigned part of Python `float(...)`: `digits [. digits] [exp]` or
`. digits [exp]`. -/
def parseUnsigned (r : List Char) : Option ℚ :=
  let d := r.takeWhile Char.isDigit
  let fr := fracSplit (r.dropWhile Char.isDigit)
  if d.isEmpty && fr.1.isEmpty then none
  else
    let mant := (natOf (d ++ fr.1) : ℚ) / 10 ^ fr.1.length
    match fr.2 with
    | [] => some mant
    | e :: r3 => if e = 'e' || e = 'E' then parseExp mant r3 else none

/-- Python `float(s)`, modelled exactly over ℚ (see the header note). -/
def pyFloat (s : List Char) : Option ℚ :=
  let t := pyStrip s
  let sg := stripSign t
  match parseUnsigned sg.2 with
  | some q => some (if sg.1 then -q else q)
  | none => none

/-- Python `int(x)` on a float: truncation toward zero (`app.py` lines
202 and 231 via `str(int(amount))`).  `Int.tdiv` is T-division, rounding
toward zero like Python `int()`, unlike the Euclidean `/` on `Int`; the
denominator of a `Rat` is always positive. -/
def pyTrunc (a : ℚ) : Int := Int.tdiv a.num (a.den : Int)

/-- Python `str(int(amount))` as a character list. -/
def pyIntStr (a : ℚ) : List Char := (toString (pyTrunc a)).toList

/-- Python `round(x, 2)` (banker's rounding on the second decimal).  Used
only for the reported OCR confidence, `app.py` line 100. -/
def round2 (q : ℚ) : ℚ :=
  let x := q * 100
  let n := Int.fdiv x.num (x.den : Int)
  let r := x - (n : ℚ)
  let m :=
    if r < 1/2 then n
    else if 1/2 < r then n + 1
    else if n % 2 = 0 then n else n + 1
  (m : ℚ) / 100

/-! ### Token extraction (`step1`, `app.py` lines 65-101)

The four regex patterns of line 69-74 are compiled into explicit scanners.
Each scanner models `re.findall`: leftmost, non-overlapping, greedy
matches.  The scanners take a fuel argument (structural recursion); fuel
equal to the length of the list is always sufficient because every step
consumes at least one character. -/

/-- Optional fractional part `(?:\.\d+)?`: consumed only when a `.` is
immediately followed by at least one digit.  Returns (consumed, rest). -/
def takeFrac : List Char → List Char × List Char
  | [] => ([], [])
  | c :: u =>
    if c = '.' then
      if (u.takeWhile Char.isDigit).isEmpty then ([], c :: u)
      else ('.' :: u.takeWhile Char.isDigit, u.dropWhile Char.isDigit)
    else ([], c :: u)

/-- Optional percent sign `%?`.  Returns (consumed, rest). -/
def takePct : List Char → List Char × List Char
  | [] => ([], [])
  | c :: u => if c = '%' then (['%'], u) else ([], c :: u)

/-- Scanner for pattern 1, `\d+(?:\.\d+)?%?`. -/
def scan1F : Nat → List Char → List (List Char)
  | 0, _ => []
  | _ + 1, [] => []
  | fuel + 1, c :: t =>
    if c.isDigit then
      let ds := List.takeWhile Char.isDigit (c :: t)
      let fr := takeFrac (List.dropWhile Char.isDigit (c :: t))
      let pc := takePct fr.2
      (ds ++ fr.1 ++ pc.1) :: scan1F fuel pc.2
    else scan1F fuel t

/-- Scanner for patterns 2 and 4, `[g₁g₂]\d+` (a confusable glyph followed
by digits). -/
def scanGlyphF (g1 g2 : Char) : Nat → List Char → List (List Char)
  | 0, _ => []
  | _ + 1, [] => []
  | fuel + 1, c :: t =>
    if c = g1 || c = g2 then
      if (t.takeWhile Char.isDigit).isEmpty then scanGlyphF g1 g2 fuel t
      else (c :: t.takeWhile Char.isDigit) :: scanGlyphF g1 g2 fuel (t.dropWhile Char.isDigit)
    else scanGlyphF g1 g2 fuel t

/-- Scanner for pattern 3, `\d+[lI]`: by greediness and backtracking, a
match occurs exactly when a maximal digit run is immediately followed by
`l` or `I`, and it consumes the whole run plus the glyph; a run not so
followed is skipped entirely (every start position inside it fails). -/
def scan3F : Nat → List Char → List (List Char)
  | 0, _ => []
  | _ + 1, [] => []
  | fuel + 1, c :: t =>
    if c.isDigit then
      match List.dropWhile Char.isDigit (c :: t) with
      | [] => []
      | g :: u =>
        if g = 'l' || g = 'I' then
          (List.takeWhile Char.isDigit (c :: t) ++ [g]) :: scan3F fuel u
        else scan3F fuel (g :: u)
    else scan3F fuel t

/-- Pattern 1 over a whole text. -/
def scan1 (l : List Char) : List (List Char) := scan1F l.length l

/-- Pattern 2 (`[lI]\d+`) over a whole text. -/
def scan2 (l : List Char) : List (List Char) := scanGlyphF 'l' 'I' l.length l

/-- Pattern 3 (`\d+[lI]`) over a whole text. -/
def scan3 (l : List Char) : List (List Char) := scan3F l.length l

/-- Pattern 4 (`[Oo]\d+`) over a whole text. -/
def scan4 (l : List Char) : List (List Char) := scanGlyphF 'O' 'o' l.length l

/-- De-duplication preserving first-seen order (`app.py` lines 81-82:
`seen` set plus ordered comprehension). -/
def dedupSeen (seen : List String) : List String → List String
  | [] => []
  | x :: xs => if x ∈ seen then dedupSeen seen xs else x :: dedupSeen (x :: seen) xs

/-- Raw-token extraction: the four patterns applied in order, results
concatenated, then de-duplicated (`app.py` lines 66-82). -/
def extractRawTokens (cs : List Char) : List String :=
  dedupSeen [] ((scan1 cs ++ scan2 cs ++ scan3 cs ++ scan4 cs).map String.mk)

/-- Currency detection (`app.py` lines 34-38 and 90-95): the patterns
`(?:INR|Rs\.?|₹)`, `(?:USD|\$)`, `(?:EUR|€)` are tried in this order with
`re.IGNORECASE`; existence of a match reduces to case-insensitive substring
tests (the optional dot of `Rs\.?` cannot affect existence). -/
def matchINR (ls : List Char) : Bool :=
  isSubstr (String.toList "inr") ls || isSubstr (String.toList "rs") ls || containsChar '₹' ls

/-- Case-insensitive existence of a match of `(?:USD|\$)`. -/
def matchUSD (ls : List Char) : Bool :=
  isSubstr (String.toList "usd") ls || containsChar '$' ls

/-- Case-insensitive existence of a match of `(?:EUR|€)`. -/
def matchEUR (ls : List Char) : Bool :=
  isSubstr (String.toList "eur") ls || containsChar '€' ls

/-- Currency loop body (`app.py` lines 91-95): dictionary order INR, USD,
EUR; first match wins; default INR. -/
def currency_hint (cs : List Char) : String :=
  let ls := cs.map Char.toLower
  if matchINR ls then "INR"
  else if matchUSD ls then "USD"
  else if matchEUR ls then "EUR"
  else "INR"

/-! ### Data model -/

/-- Result of step 1 (`app.py` lines 59-63, 84-88, 97-101). -/
inductive Step1Result where
  | noAmounts (status reason : String)
  | tokens (raw_tokens : List String) (currency_hint : String) (confidence : ℚ)
deriving DecidableEq

/-- Result of step 2 (`app.py` lines 128-131). -/
structure Step2Result where
  normalized_amounts : List ℚ
  normalization_confidence : ℚ
deriving DecidableEq

/-- One classified amount (`{"type": ..., "value": ...}`). -/
structure Classified where
  type : String
  value : ℚ
deriving DecidableEq

/-- Result of step 3 (`{"amounts": [...], "confidence": ...}`). -/
structure ClassifyResult where
  amounts : List Classified
  confidence : ℚ
deriving DecidableEq

/-- One final amount with provenance (`app.py` lines 242-246). -/
structure FinalAmount where
  type : String
  value : ℚ
  source : String
deriving DecidableEq

/-- Result of step 4 (`app.py` lines 248-252). -/
structure Report where
  currency : String
  amounts : List FinalAmount
  status : String
deriving DecidableEq

/-- Full-pipeline output: either the terminal `no_amounts_found` dict of
step 1 returned unchanged, or the step-4 report with the added
`confidence_score` key (`app.py` lines 259-260 and 280). -/
inductive ProcessOut where
  | terminal (status reason : String)
  | report (currency : String) (amounts : List FinalAmount) (status : String)
      (confidence_score : ℚ)
deriving DecidableEq

/-- External collaborators: the OCR engine (`pytesseract.image_to_string`),
the LLM (`gemini_model.generate_content`, returning response text), and
the JSON decoder applied to the extracted brace span (`json.loads`
composed with reading the two keys; a span that is not valid JSON of the
expected shape is `none`, which the caller turns into the fallback). -/
structure Collab where
  ocrRaw : List Nat → Except String String
  llm : String → Except String String
  jparse : String → Option ClassifyResult

/-! ### Pipeline stages -/

/-- OCR wrapper `extract_text_from_image` (`app.py` lines 40-49): calls the
engine, computes `max(0.5, min(0.95, len(text.strip())/100))`, wraps
failures in an `OCR failed:` message. -/
def extract_text_from_image (c : Collab) (img : List Nat) : Except String (String × ℚ) :=
  match c.ocrRaw img with
  | .error e => .error ("OCR failed: " ++ e)
  | .ok t => .ok (t, max 0.5 (min 0.95 (((pyStrip t.toList).length : ℚ) / 100)))

/-- Step 1 `step1_ocr_extraction` (`app.py` lines 51-101). -/
def step1_ocr_extraction (c : Collab) (text : Option String)
    (image_data : Option (List Nat)) : Except String Step1Result :=
  let acq : Except String (String × ℚ) :=
    if pyTruthyBytes image_data then extract_text_from_image c (image_data.getD [])
    else .ok (text.getD "", 0.95)
  match acq with
  | .error e => .error e
  | .ok (t, ocr_confidence) =>
    if !(pyTruthyStr (some t)) || (pyStrip t.toList).length < 5 then
      .ok (.noAmounts "no_amounts_found" "document too noisy")
    else
      let raw_tokens := extractRawTokens t.toList
      if raw_tokens.isEmpty then
        .ok (.noAmounts "no_amounts_found" "no numeric values detected")
      else .ok (.tokens raw_tokens (currency_hint t.toList) (round2 ocr_confidence))

/-- Glyph repair of step 2 (`app.py` lines 113-116): `l`,`I` → `1`,
`O`,`o` → `0`. -/
def substGlyph (c : Char) : Char :=
  if c = 'l' || c = 'I' then '1'
  else if c = 'O' || c = 'o' then '0'
  else c

/-- Cleaning of one token (`app.py` lines 113-116): glyph repair then
removal of thousands-separator commas. -/
def cleanChars (l : List Char) : List Char :=
  (l.map substGlyph).filter (fun c => c != ',')

/-- Loop body of step 2 (`app.py` lines 108-124): skip `%` tokens, clean,
parse, keep positive values.  A whole number is appended as `int(amount)`
in Python; over ℚ this is the same value. -/
def normalizeTokens : List String → List ℚ
  | [] => []
  | t :: rest =>
    if containsChar '%' t.toList then normalizeTokens rest
    else
      match pyFloat (cleanChars t.toList) with
      | some a => if 0 < a then a :: normalizeTokens rest else normalizeTokens rest
      | none => normalizeTokens rest

/-- Step 2 `step2_normalization` (`app.py` lines 103-131). -/
def step2_normalization (raw_tokens : List String) : Step2Result :=
  let ns := normalizeTokens raw_tokens
  ⟨ns, if ns.isEmpty then 0 else 0.82⟩

/-- Keyword table of the fallback classifier (`app.py` lines 191-199), in
source order (= priority order). -/
def keywordsTable : List (String × List String) :=
  [("total_bill", ["total", "grand total", "amount", "bill"]),
   ("paid", ["paid", "payment", "received"]),
   ("due", ["due", "balance", "outstanding", "pending"]),
   ("discount", ["discount", "off"]),
   ("consultation_fee", ["consultation", "doctor", "visit"]),
   ("medicine_cost", ["medicine", "药", "drugs", "pharmacy"]),
   ("test_cost", ["test", "lab", "x-ray", "scan"])]

/-- Existence of a match of `f"{term}.*?{digits}|{digits}.*?{term}"` in the
lowered text (`app.py` lines 208-209).  In Python's default mode `.` does
not match a newline, so a match lies within one newline-separated segment;
neither the keywords nor the digit strings contain a newline. -/
def proxMatch (term digits tlower : List Char) : Bool :=
  (splitNL tlower).any (fun line => seqSub term digits line || seqSub digits term line)

/-- Inner loops of the fallback classifier (`app.py` lines 206-214): first
category, in table order, one of whose terms matches; `none` if no
category matches. -/
def classifyFirst : List (String × List String) → List Char → List Char → Option String
  | [], _, _ => none
  | (cat, terms) :: rest, digits, tl =>
    if terms.any (fun term => proxMatch term.toList digits tl) then some cat
    else classifyFirst rest digits tl

/-- Fallback classifier `_fallback_classification` (`app.py` lines
186-222). -/
def fallback_classification (text : String) (amounts : List ℚ) : ClassifyResult :=
  let tl := text.toList.map Char.toLower
  ⟨amounts.map (fun a =>
      match classifyFirst keywordsTable (pyIntStr a) tl with
      | some cat => ⟨cat, a⟩
      | none => ⟨"other", a⟩),
   0.70⟩

/-- Number rendering inside the prompt (Python formats the amount list with
`str`; non-integer rationals are rendered here as fractions — the prompt
string only ever reaches the abstract `llm` collaborator, so no property
depends on this rendering). -/
def renderAmount (a : ℚ) : String :=
  if a.den = 1 then toString a.num else toString a.num ++ "/" ++ toString a.den

/-- Python `str(normalized_amounts)` for the prompt. -/
def renderAmounts (l : List ℚ) : String :=
  "[" ++ String.intercalate ", " (l.map renderAmount) ++ "]"

/-- Prompt construction of step 3 (`app.py` lines 142-167). -/
def promptFor (text : String) (amounts : List ℚ) : String :=
  "Analyze this medical bill/receipt text and classify the amounts by their context.\n\nText: "
    ++ text
    ++ "\n\nAmounts found: "
    ++ renderAmounts amounts
    ++ "\n\nCommon medical bill categories:\n- total_bill: The total amount of the bill\n- paid: Amount already paid\n- due: Amount still due/outstanding\n- discount: Discount amount\n- consultation_fee: Doctor consultation fee\n- medicine_cost: Cost of medicines\n- test_cost: Cost of tests/procedures\n- other: Other charges\n\nFor each amount, identify its type based on the surrounding text context.\n\nReturn ONLY a valid JSON object in this exact format:\n\x7b\n  \"amounts\": [\n    \x7b\"type\": \"category_name\", \"value\": amount_number\x7d,\n    ...\n  ],\n  \"confidence\": 0.XX\n\x7d"

/-- Index of the last occurrence of a character. -/
def lastIdxOf (ch : Char) (l : List Char) : Option Nat :=
  match l.reverse.findIdx? (fun c => c = ch) with
  | some k => some (l.length - 1 - k)
  | none => none

/-- Extraction of the JSON span, `re.search(r'\{.*\}', response, re.DOTALL)`
(`app.py` line 174): with DOTALL and a greedy `.*`, a match exists iff some
`\x7b` is followed by a later `\x7d`; the leftmost-greedy match runs from
the first `\x7b` to the last `\x7d`.  (If no `\x7d` follows the first
`\x7b`, none follows any later one either, because the last `\x7d` of the
whole string would already be past the first `\x7b`.) -/
def extractJsonSpan (s : String) : Option String :=
  let cs := s.toList
  match cs.findIdx? (fun c => c = '\x7b'), lastIdxOf '\x7d' cs with
  | some i, some j =>
    if i < j then some (String.mk ((cs.drop i).take (j - i + 1))) else none
  | _, _ => none

/-- Step 3 `step3_classification` (`app.py` lines 133-184): empty amount
list short-circuits; otherwise the LLM is consulted and any failure of
that path (transport error, no brace span, unusable JSON) falls back to
the rule-based classifier. -/
def step3_classification (c : Collab) (text : String)
    (normalized_amounts : List ℚ) : ClassifyResult :=
  if normalized_amounts.isEmpty then ⟨[], 0⟩
  else
    match c.llm (promptFor text normalized_amounts) with
    | .error _ => fallback_classification text normalized_amounts
    | .ok resp =>
      match extractJsonSpan resp with
      | none => fallback_classification text normalized_amounts
      | some span =>
        match c.jparse span with
        | some r => r
        | none => fallback_classification text normalized_amounts

/-- Provenance loop of step 4 (`app.py` lines 234-240): first line
containing the integer textual form, else "unknown". -/
def findSourceLine (astr : List Char) : List (List Char) → String
  | [] => "unknown"
  | l :: rest =>
    if isSubstr astr l then
      "text: \x27" ++ String.mk ((pyStrip l).take 50) ++ "\x27"
    else findSourceLine astr rest

/-- Step 4 `step4_final_output` (`app.py` lines 224-252). -/
def step4_final_output (text : String) (currency : String)
    (classified_amounts : List Classified) : Report :=
  ⟨currency,
   classified_amounts.map (fun item =>
     ⟨item.type, item.value, findSourceLine (pyIntStr item.value) (splitNL text.toList)⟩),
   "ok"⟩

/-- Full pipeline `process_document` (`app.py` lines 254-282). -/
def process_document (c : Collab) (text : Option String)
    (image_data : Option (List Nat)) : Except String ProcessOut :=
  match step1_ocr_extraction c text image_data with
  | .error e => .error e
  | .ok (.noAmounts status reason) => .ok (.terminal status reason)
  | .ok (.tokens raw_tokens currency _) =>
    let s2 := step2_normalization raw_tokens
    let textEff : Except String String :=
      if pyTruthyBytes image_data && !(pyTruthyStr text) then
        match extract_text_from_image c (image_data.getD []) with
        | .error e => .error e
        | .ok (t, _) => .ok t
      else .ok (text.getD "")
    match textEff with
    | .error e => .error e
    | .ok t =>
      let s3 := step3_classification c t s2.normalized_amounts
      let final := step4_final_output t currency s3.amounts
      .ok (.report final.currency final.amounts final.status s3.confidence)

/-- Collaborator bundle in which every external call fails: the OCR engine
raises, the LLM is unavailable and no JSON ever parses. -/
def noCollab : Collab :=
  ⟨fun _ => .error "no ocr", fun _ => .error "llm unavailable", fun _ => none⟩

/-! ### Spec-side definitions

The following definitions restate parts of the specification in its own
words; the claim theorems compare them with the loop-structured
definitions above that were translated from the source. -/

/-- Spec wording for the fallback label of one amount: the first category,
in the fixed priority order of the keyword table, one of whose keywords
matches near the amount's digit string; `other` if none matches. -/
def specFirstCategory (tl digits : List Char) : String :=
  match keywordsTable.find? (fun p => p.2.any (fun term => proxMatch term.toList digits tl)) with
  | some p => p.1
  | none => "other"

/-- Spec wording for provenance: a quoted excerpt (at most 50 characters,
after trimming) of the first source line containing the amount's integer
textual form, or "unknown" if no line matches. -/
def specProvenance (text : String) (v : ℚ) : String :=
  match (splitNL text.toList).find? (fun l => isSubstr (pyIntStr v) l) with
  | some l => "text: \x27" ++ String.mk ((pyStrip l).take 50) ++ "\x27"
  | none => "unknown"

/-- Failure of the LLM classification path (`app.py` lines 169-184): the
collaborator throws, or no brace span is found in its response, or the
extracted span is not usable JSON. -/
def llmPathFails (c : Collab) (text : String) (amounts : List ℚ) : Prop :=
  match c.llm (promptFor text amounts) with
  | .error _ => True
  | .ok resp =>
    match extractJsonSpan resp with
    | none => True
    | some span => c.jparse span = none

/-- Spec-side spelling of the pipeline when both a text and an image are
supplied: token extraction runs on the OCR text (the supplied text plays
no role in step 1), while classification and provenance use the supplied
text. -/
def processBothTexts (c : Collab) (t : String) (img : List Nat) : Except String ProcessOut :=
  match step1_ocr_extraction c none (some img) with
  | .error e => .error e
  | .ok (.noAmounts status reason) => .ok (.terminal status reason)
  | .ok (.tokens raw_tokens currency _) =>
    let s2 := step2_normalization raw_tokens
    let s3 := step3_classification c t s2.normalized_amounts
    let final := step4_final_output t currency s3.amounts
    .ok (.report final.currency final.amounts final.status s3.confidence)

/-- Amount list of a successful report (empty for errors and terminal
results); used to state concrete refutations. -/
def reportAmounts : Except String ProcessOut → List FinalAmount
  | .ok (.report _ ams _ _) => ams
  | _ => []

/-- The four-line bill of the end-to-end scenario. -/
def text4 : String :=
  "Doctor Consultation Fee: Rs 500\nTotal Amount: Rs 2940\nAmount Paid: Rs 2000\nBalance Due: Rs 940"

/-- Collaborator bundle whose OCR engine reads every image as
`Total 777 bill` and whose LLM is down. -/
def ocr777Collab : Collab :=
  ⟨fun _ => .ok "Total 777 bill", fun _ => .error "down", fun _ => none⟩

/-! ### General lemmas -/

theorem classifyFirst_eq_find :
    ∀ (table : List (String × List String)) (digits tl : List Char),
      classifyFirst table digits tl
        = (table.find? (fun p => p.2.any (fun term => proxMatch term.toList digits tl))).map
            Prod.fst := by
  intro table digits tl
  induction table with
  | nil => rfl
  | cons p rest ih =>
    obtain ⟨cat, terms⟩ := p
    unfold classifyFirst
    rw [List.find?_cons]
    cases h : terms.any (fun term => proxMatch term.toList digits tl) with
    | true => simp [h]
    | false => simp [h, ih]

theorem findSourceLine_eq_find :
    ∀ (lines : List (List Char)) (astr : List Char),
      findSourceLine astr lines
        = match lines.find? (fun l => isSubstr astr l) with
          | some l => "text: \x27" ++ String.mk ((pyStrip l).take 50) ++ "\x27"
          | none => "unknown" := by
  intro lines astr
  induction lines with
  | nil => rfl
  | cons l rest ih =>
    unfold findSourceLine
    rw [List.find?_cons]
    cases h : isSubstr astr l with
    | true => simp [h]
    | false => simp [h, ih]

theorem containsChar_map_self (f : Char → Char) (ch : Char) (hf : f ch = ch) :
    ∀ l, containsChar ch l = true → containsChar ch (l.map f) = true := by
  intro l
  induction l with
  | nil => intro h; exact h
  | cons c t ih =>
    intro h
    rw [List.map_cons]
    unfold containsChar at h ⊢
    simp only [Bool.or_eq_true, decide_eq_true_eq] at h ⊢
    rcases h with h | h
    · left; rw [h, hf]
    · right; exact ih h

theorem isDigit_ne (c : Char) (h : c.isDigit = true) (d : Char) (hd : d.isDigit = false) :
    c ≠ d := by
  intro he
  rw [he, hd] at h
  cases h

theorem normalizeTokens_pos :
    ∀ (ts : List String) (v : ℚ), v ∈ normalizeTokens ts → 0 < v := by
  intro ts
  induction ts with
  | nil => intro v hv; simp [normalizeTokens] at hv
  | cons t rest ih =>
    intro v hv
    unfold normalizeTokens at hv
    split at hv
    · exact ih v hv
    · split at hv
      · split at hv
        · rcases List.mem_cons.mp hv with h | h
          · subst h; assumption
          · exact ih v h
        · exact ih v hv
      · exact ih v hv

theorem normalizeTokens_filter :
    ∀ ts : List String,
      normalizeTokens (ts.filter (fun t => !(containsChar '%' t.toList)))
        = normalizeTokens ts := by
  intro ts
  induction ts with
  | nil => rfl
  | cons t rest ih =>
    rw [List.filter_cons]
    cases hc : containsChar '%' t.toList with
    | true =>
      simp only [hc, Bool.not_true]
      rw [if_neg (by simp)]
      rw [ih]
      conv_rhs => unfold normalizeTokens
      rw [if_pos hc]
    | false =>
      simp only [hc, Bool.not_false, if_true]
      conv_lhs => unfold normalizeTokens
      conv_rhs => unfold normalizeTokens
      rw [if_neg (by simp [show containsChar '%' t.data = false from hc]),
        if_neg (by simp [show containsChar '%' t.data = false from hc]), ih]

theorem isPySpace_false_of_digit (c : Char) (h : c.isDigit = true) : isPySpace c = false := by
  cases hc : isPySpace c
  · rfl
  · exfalso
    have hmem : c ∈ pySpaceChars := of_decide_eq_true hc
    fin_cases hmem <;> exact absurd h (by decide)

theorem dropWhile_eq_self_of_neg (p : Char → Bool) :
    ∀ l : List Char, (∀ c ∈ l, p c = false) → l.dropWhile p = l := by
  intro l h
  cases l with
  | nil => rfl
  | cons c t => exact List.dropWhile_cons_of_neg (by simp [h c (List.mem_cons_self c t)])

theorem pyStrip_of_digits (w : List Char) (h : ∀ c ∈ w, c.isDigit = true) : pyStrip w = w := by
  unfold pyStrip
  have h1 : ∀ c ∈ w, isPySpace c = false := fun c hc => isPySpace_false_of_digit c (h c hc)
  rw [dropWhile_eq_self_of_neg _ w h1]
  rw [dropWhile_eq_self_of_neg _ w.reverse (fun c hc => h1 c (List.mem_reverse.mp hc))]
  exact List.reverse_reverse w

theorem stripSign_of_digit (c : Char) (t : List Char) (h : c.isDigit = true) :
    stripSign (c :: t) = (false, c :: t) := by
  have h1 : c ≠ '+' := isDigit_ne c h '+' (by decide)
  have h2 : c ≠ '-' := isDigit_ne c h '-' (by decide)
  simp [stripSign, h1, h2]

theorem parseUnsigned_digits (w : List Char) (hne : w ≠ []) (h : ∀ c ∈ w, c.isDigit = true) :
    parseUnsigned w = some ((natOf w : ℚ)) := by
  unfold parseUnsigned
  rw [List.takeWhile_eq_self_iff.mpr h, List.dropWhile_eq_nil_iff.mpr h]
  have hemp : w.isEmpty = false := by simp [List.isEmpty_iff, hne]
  simp [fracSplit, hemp, List.append_nil]

theorem pyFloat_digits (w : List Char) (hne : w ≠ []) (h : ∀ c ∈ w, c.isDigit = true) :
    pyFloat w = some ((natOf w : ℚ)) := by
  obtain ⟨c, t, rfl⟩ : ∃ c t, w = c :: t := by
    cases w with
    | nil => exact absurd rfl hne
    | cons c t => exact ⟨c, t, rfl⟩
  simp only [pyFloat]
  rw [pyStrip_of_digits (c :: t) h, stripSign_of_digit c t (h c (List.mem_cons_self c t))]
  rw [show ((false, c :: t) : Bool × List Char).2 = c :: t from rfl]
  rw [parseUnsigned_digits (c :: t) hne h]
  rfl

theorem substGlyph_digit (c : Char) (h : c.isDigit = true) : substGlyph c = c := by
  unfold substGlyph
  rw [if_neg (by simp [isDigit_ne c h 'l' (by decide), isDigit_ne c h 'I' (by decide)]),
    if_neg (by simp [isDigit_ne c h 'O' (by decide), isDigit_ne c h 'o' (by decide)])]

theorem cleanChars_of_digits (w : List Char) (h : ∀ c ∈ w, c.isDigit = true) :
    cleanChars w = w := by
  unfold cleanChars
  have h1 : w.map substGlyph = w := by
    rw [List.map_congr_left (fun a ha => substGlyph_digit a (h a ha))]
    exact List.map_id' w
  rw [h1]
  exact List.filter_eq_self.mpr (fun a ha => by
    simp [isDigit_ne a (h a ha) ',' (by decide)])

theorem containsChar_false_of_digits (w : List Char) (h : ∀ c ∈ w, c.isDigit = true) :
    containsChar '%' w = false := by
  induction w with
  | nil => rfl
  | cons c t ih =>
    unfold containsChar
    have hc : c ≠ '%' := isDigit_ne c (h c (List.mem_cons_self c t)) '%' (by decide)
    simp [hc, ih (fun x hx => h x (List.mem_cons_of_mem c hx))]

theorem mem_dedupSeen :
    ∀ (l seen : List String) (x : String), x ∈ l → x ∉ seen → x ∈ dedupSeen seen l := by
  intro l
  induction l with
  | nil => intro seen x hx _; exact absurd hx (List.not_mem_nil x)
  | cons y ys ih =>
    intro seen x hx hns
    unfold dedupSeen
    by_cases hy : y ∈ seen
    · rw [if_pos hy]
      rcases List.mem_cons.mp hx with rfl | hx'
      · exact absurd hy hns
      · exact ih seen x hx' hns
    · rw [if_neg hy]
      by_cases hxy : x = y
      · subst hxy; exact List.mem_cons_self x _
      · rcases List.mem_cons.mp hx with h | hx'
        · exact absurd h hxy
        · refine List.mem_cons_of_mem y (ih (y :: seen) x hx' ?_)
          intro hmem
          rcases List.mem_cons.mp hmem with h | h
          · exact hxy h
          · exact hns h

theorem mem_normalizeTokens :
    ∀ (ts : List String) (s : String) (v : ℚ),
      s ∈ ts → containsChar '%' s.toList = false →
      pyFloat (cleanChars s.toList) = some v → 0 < v →
      v ∈ normalizeTokens ts := by
  intro ts
  induction ts with
  | nil => intro s v hs _ _ _; exact absurd hs (List.not_mem_nil s)
  | cons t rest ih =>
    intro s v hs hp hf hv
    rcases List.mem_cons.mp hs with rfl | hs'
    · unfold normalizeTokens
      rw [if_neg (by simp [show containsChar '%' s.data = false from hp])]
      rw [hf]
      show v ∈ (if 0 < v then v :: normalizeTokens rest else normalizeTokens rest)
      rw [if_pos hv]
      exact List.mem_cons_self v _
    · have hrec := ih s v hs' hp hf hv
      unfold normalizeTokens
      split
      · exact hrec
      · split
        · split
          · exact List.mem_cons_of_mem _ hrec
          · exact hrec
        · exact hrec

theorem head_dropWhile_false (p : Char → Bool) (l : List Char) (c : Char) (t : List Char)
    (h : l.dropWhile p = c :: t) : p c = false := by
  have hx := List.head?_dropWhile_not p l
  rw [h] at hx
  exact hx

theorem head?_cons_elim {x ch : Char} {Y : List Char} (h : (x :: Y).head? = some ch) :
    ch = x := by
  rw [List.head?_cons] at h
  exact (Option.some.inj h).symm

theorem dropWhile_ne_nil_of_boundary (l : List Char) (hne : l ≠ [])
    (hL : ∀ ch, l.getLast? = some ch → ch.isDigit = false ∧ ch ≠ '.') :
    l.dropWhile Char.isDigit ≠ [] := by
  intro h0
  have hall := List.dropWhile_eq_nil_iff.mp h0
  obtain ⟨g, hg⟩ : ∃ g, l.getLast? = some g :=
    Option.isSome_iff_exists.mp (by simp [hne])
  exact absurd (hall g (List.mem_of_getLast?_eq_some hg)) (by simp [(hL g hg).1])

theorem getLast?_suffix (pre suf l : List Char) (hl : l = pre ++ suf) (hne : suf ≠ []) :
    l.getLast? = suf.getLast? := by
  rw [hl]
  exact List.getLast?_append_of_ne_nil pre hne

theorem boundary_suffix (a suf : List Char)
    (hL : ∀ ch, a.getLast? = some ch → ch.isDigit = false ∧ ch ≠ '.')
    (pre : List Char) (hdecomp : a = pre ++ suf) :
    ∀ ch, suf.getLast? = some ch → ch.isDigit = false ∧ ch ≠ '.' := by
  intro ch hch
  by_cases hne : suf = []
  · subst hne; simp at hch
  · exact hL ch (by rw [getLast?_suffix pre suf a hdecomp hne]; exact hch)

theorem takeWhile_append_stop (l r : List Char) (h : l.dropWhile Char.isDigit ≠ []) :
    (l ++ r).takeWhile Char.isDigit = l.takeWhile Char.isDigit := by
  rw [List.takeWhile_append]
  rw [if_neg]
  intro hlen
  have hsum : (l.takeWhile Char.isDigit).length + (l.dropWhile Char.isDigit).length
      = l.length := by
    rw [← List.length_append, List.takeWhile_append_dropWhile]
  rw [hlen] at hsum
  exact h (List.length_eq_zero.mp (by omega))

theorem dropWhile_append_stop (l r : List Char) (h : l.dropWhile Char.isDigit ≠ []) :
    (l ++ r).dropWhile Char.isDigit = l.dropWhile Char.isDigit ++ r := by
  rw [List.dropWhile_append]
  rw [if_neg (by simp [List.isEmpty_iff, h])]

theorem takeWhile_nil_of_head (b : List Char)
    (hR : ∀ ch, b.head? = some ch → ch.isDigit = false) :
    b.takeWhile Char.isDigit = [] := by
  cases b with
  | nil => rfl
  | cons x u => exact List.takeWhile_cons_of_neg (by simp [hR x rfl])

theorem dropWhile_self_of_head (b : List Char)
    (hR : ∀ ch, b.head? = some ch → ch.isDigit = false) :
    b.dropWhile Char.isDigit = b := by
  cases b with
  | nil => rfl
  | cons x u => exact List.dropWhile_cons_of_neg (by simp [hR x rfl])

theorem takeFrac_no (r : List Char) (h : ∀ ch, r.head? = some ch → ch ≠ '.') :
    takeFrac r = ([], r) := by
  cases r with
  | nil => rfl
  | cons c u => simp [takeFrac, h c rfl]

theorem takePct_no (r : List Char) (h : ∀ ch, r.head? = some ch → ch ≠ '%') :
    takePct r = ([], r) := by
  cases r with
  | nil => rfl
  | cons c u => simp [takePct, h c rfl]

theorem scan1F_cons_digit (fuel : Nat) (c : Char) (t : List Char) (hc : c.isDigit = true) :
    scan1F (fuel + 1) (c :: t)
      = (List.takeWhile Char.isDigit (c :: t)
          ++ (takeFrac (List.dropWhile Char.isDigit (c :: t))).1
          ++ (takePct ((takeFrac (List.dropWhile Char.isDigit (c :: t))).2)).1)
        :: scan1F fuel ((takePct ((takeFrac (List.dropWhile Char.isDigit (c :: t))).2)).2) := by
  simp [scan1F, hc]

theorem scan1F_cons_nondigit (fuel : Nat) (c : Char) (t : List Char) (hc : c.isDigit = false) :
    scan1F (fuel + 1) (c :: t) = scan1F fuel t := by
  simp [scan1F, hc]

/-- Main scanner lemma: a maximal digit run that is not preceded by a dot
and not followed by a dot or a percent sign is emitted verbatim as one of
the pattern-1 tokens. -/
theorem scan1F_mem :
    ∀ (fuel : Nat) (a w b : List Char),
      (a ++ (w ++ b)).length ≤ fuel →
      w ≠ [] → (∀ c ∈ w, c.isDigit = true) →
      (∀ ch, a.getLast? = some ch → ch.isDigit = false ∧ ch ≠ '.') →
      (∀ ch, b.head? = some ch → ch.isDigit = false ∧ ch ≠ '.' ∧ ch ≠ '%') →
      w ∈ scan1F fuel (a ++ (w ++ b)) := by
  intro fuel
  induction fuel with
  | zero =>
    intro a w b hlen hw _ _ _
    exfalso
    have hwpos : 0 < w.length := List.length_pos.mpr hw
    have h1 : (a ++ (w ++ b)).length = a.length + (w.length + b.length) := by
      rw [List.length_append, List.length_append]
    omega
  | succ fuel ih =>
    intro a w b hlen hw hdig hL hR
    cases a with
    | nil =>
      obtain ⟨c, wt, rfl⟩ : ∃ c wt, w = c :: wt := List.exists_cons_of_ne_nil hw
      have hc : c.isDigit = true := hdig c (List.mem_cons_self c wt)
      rw [List.nil_append, List.cons_append]
      rw [scan1F_cons_digit fuel c (wt ++ b) hc]
      have h1 : List.takeWhile Char.isDigit (c :: (wt ++ b)) = c :: wt := by
        rw [← List.cons_append, List.takeWhile_append_of_pos hdig,
          takeWhile_nil_of_head b (fun ch hch => (hR ch hch).1), List.append_nil]
      have h2 : List.dropWhile Char.isDigit (c :: (wt ++ b)) = b := by
        rw [← List.cons_append, List.dropWhile_append_of_pos hdig]
        exact dropWhile_self_of_head b (fun ch hch => (hR ch hch).1)
      rw [h1, h2, takeFrac_no b (fun ch hch => (hR ch hch).2.1)]
      rw [show ((([] : List Char), b) : List Char × List Char).2 = b from rfl,
        show ((([] : List Char), b) : List Char × List Char).1 = [] from rfl]
      rw [takePct_no b (fun ch hch => (hR ch hch).2.2)]
      rw [show ((([] : List Char), b) : List Char × List Char).1 = [] from rfl]
      rw [List.append_nil, List.append_nil]
      exact List.mem_cons_self _ _
    | cons c t =>
      rw [List.cons_append]
      by_cases hc : c.isDigit = true
      case neg =>
        rw [scan1F_cons_nondigit fuel c (t ++ (w ++ b)) (Bool.eq_false_iff.mpr hc)]
        refine ih t w b ?_ hw hdig ?_ hR
        · have h1 : ((c :: t) ++ (w ++ b)).length = (c :: t).length + (w.length + b.length) := by
            rw [List.length_append, List.length_append]
          have h2 : (t ++ (w ++ b)).length = t.length + (w.length + b.length) := by
            rw [List.length_append, List.length_append]
          have hct : (c :: t).length = t.length + 1 := by simp
          omega
        · intro ch hch
          apply hL
          cases t with
          | nil => simp at hch
          | cons x xs => rw [List.getLast?_cons_cons]; exact hch
      case pos =>
        have haneq : (c :: t) ≠ ([] : List Char) := by simp
        have hrA : (c :: t).dropWhile Char.isDigit ≠ [] :=
          dropWhile_ne_nil_of_boundary _ haneq hL
        set dA := (c :: t).takeWhile Char.isDigit with hdAdef
        set rA := (c :: t).dropWhile Char.isDigit with hrAdef
        have hdecomp : (c :: t) = dA ++ rA := (List.takeWhile_append_dropWhile _ _).symm
        have hdAne : dA ≠ [] := by
          rw [hdAdef, List.takeWhile_cons_of_pos hc]
          simp
        have hTW : List.takeWhile Char.isDigit (c :: (t ++ (w ++ b))) = dA := by
          rw [← List.cons_append]
          exact takeWhile_append_stop (c :: t) (w ++ b) hrA
        have hDW : List.dropWhile Char.isDigit (c :: (t ++ (w ++ b))) = rA ++ (w ++ b) := by
          rw [← List.cons_append]
          exact dropWhile_append_stop (c :: t) (w ++ b) hrA
        rw [scan1F_cons_digit fuel c (t ++ (w ++ b)) hc, hTW, hDW]
        obtain ⟨h0, rA', hrAeq⟩ := List.exists_cons_of_ne_nil hrA
        have hLrA : ∀ ch, rA.getLast? = some ch → ch.isDigit = false ∧ ch ≠ '.' :=
          boundary_suffix (c :: t) rA hL dA hdecomp
        have hsum1 : dA.length + rA.length = (c :: t).length := by
          have h' := congrArg List.length hdecomp
          simp only [List.length_append] at h'
          omega
        have hdA1 : 1 ≤ dA.length := List.length_pos.mpr hdAne
        have hlenL : (c :: t).length + (w.length + b.length) ≤ fuel + 1 := by
          have h1 : ((c :: t) ++ (w ++ b)).length = (c :: t).length + (w.length + b.length) := by
            rw [List.length_append, List.length_append]
          omega
        have hlrA : rA.length = rA'.length + 1 := by rw [hrAeq]; rfl
        by_cases hdot : h0 = '.'
        case neg =>
          by_cases hpct : h0 = '%'
          case pos =>
            subst hpct
            rw [hrAeq, List.cons_append]
            rw [takeFrac_no ('%' :: (rA' ++ (w ++ b)))
              (fun ch hch => by rw [head?_cons_elim hch]; decide)]
            rw [show ((([] : List Char), '%' :: (rA' ++ (w ++ b)))
                : List Char × List Char).2 = '%' :: (rA' ++ (w ++ b)) from rfl,
              show ((([] : List Char), '%' :: (rA' ++ (w ++ b)))
                : List Char × List Char).1 = [] from rfl]
            rw [show takePct ('%' :: (rA' ++ (w ++ b))) = (['%'], rA' ++ (w ++ b)) from by
              simp [takePct]]
            refine List.mem_cons_of_mem _ (ih rA' w b ?_ hw hdig ?_ hR)
            · have hg : (rA' ++ (w ++ b)).length = rA'.length + (w.length + b.length) := by
                rw [List.length_append, List.length_append]
              omega
            · exact boundary_suffix rA rA' hLrA ['%'] (by rw [hrAeq]; rfl)
          case neg =>
            rw [hrAeq, List.cons_append]
            rw [takeFrac_no (h0 :: (rA' ++ (w ++ b)))
              (fun ch hch => by rw [head?_cons_elim hch]; exact hdot)]
            rw [show ((([] : List Char), h0 :: (rA' ++ (w ++ b)))
                : List Char × List Char).2 = h0 :: (rA' ++ (w ++ b)) from rfl,
              show ((([] : List Char), h0 :: (rA' ++ (w ++ b)))
                : List Char × List Char).1 = [] from rfl]
            rw [takePct_no (h0 :: (rA' ++ (w ++ b)))
              (fun ch hch => by rw [head?_cons_elim hch]; exact hpct)]
            rw [show ((([] : List Char), h0 :: (rA' ++ (w ++ b)))
                : List Char × List Char).2 = h0 :: (rA' ++ (w ++ b)) from rfl,
              show ((([] : List Char), h0 :: (rA' ++ (w ++ b)))
                : List Char × List Char).1 = [] from rfl]
            refine List.mem_cons_of_mem _ ?_
            rw [← List.cons_append, ← hrAeq]
            refine ih rA w b ?_ hw hdig hLrA hR
            have hg : (rA ++ (w ++ b)).length = rA.length + (w.length + b.length) := by
              rw [List.length_append, List.length_append]
            omega
        case pos =>
          subst hdot
          have hrA'ne : rA' ≠ [] := by
            intro h0'
            subst h0'
            exact (hLrA '.' (by rw [hrAeq]; rfl)).2 rfl
          have hLrA' : ∀ ch, rA'.getLast? = some ch → ch.isDigit = false ∧ ch ≠ '.' :=
            boundary_suffix rA rA' hLrA ['.'] (by rw [hrAeq]; rfl)
          have hrA2ne : rA'.dropWhile Char.isDigit ≠ [] :=
            dropWhile_ne_nil_of_boundary rA' hrA'ne hLrA'
          set dA' := rA'.takeWhile Char.isDigit with hdA'def
          set rA2 := rA'.dropWhile Char.isDigit with hrA2def
          have hdecomp' : rA' = dA' ++ rA2 := (List.takeWhile_append_dropWhile _ _).symm
          have hsum2 : dA'.length + rA2.length = rA'.length := by
            have h' := congrArg List.length hdecomp'
            simp only [List.length_append] at h'
            omega
          have hTW' : (rA' ++ (w ++ b)).takeWhile Char.isDigit = dA' :=
            takeWhile_append_stop rA' (w ++ b) hrA2ne
          have hDW' : (rA' ++ (w ++ b)).dropWhile Char.isDigit = rA2 ++ (w ++ b) :=
            dropWhile_append_stop rA' (w ++ b) hrA2ne
          rw [hrAeq, List.cons_append]
          by_cases hdA'e : dA' = []
          case pos =>
            rw [show takeFrac ('.' :: (rA' ++ (w ++ b))) = ([], '.' :: (rA' ++ (w ++ b))) from by
              simp [takeFrac, hTW', hdA'e]]
            rw [show ((([] : List Char), '.' :: (rA' ++ (w ++ b)))
                : List Char × List Char).2 = '.' :: (rA' ++ (w ++ b)) from rfl,
              show ((([] : List Char), '.' :: (rA' ++ (w ++ b)))
                : List Char × List Char).1 = [] from rfl]
            rw [takePct_no ('.' :: (rA' ++ (w ++ b)))
              (fun ch hch => by rw [head?_cons_elim hch]; decide)]
            rw [show ((([] : List Char), '.' :: (rA' ++ (w ++ b)))
                : List Char × List Char).2 = '.' :: (rA' ++ (w ++ b)) from rfl,
              show ((([] : List Char), '.' :: (rA' ++ (w ++ b)))
                : List Char × List Char).1 = [] from rfl]
            refine List.mem_cons_of_mem _ ?_
            rw [← List.cons_append, ← hrAeq]
            refine ih rA w b ?_ hw hdig hLrA hR
            have hg : (rA ++ (w ++ b)).length = rA.length + (w.length + b.length) := by
              rw [List.length_append, List.length_append]
            omega
          case neg =>
            rw [show takeFrac ('.' :: (rA' ++ (w ++ b)))
                = ('.' :: dA', rA2 ++ (w ++ b)) from by
              simp [takeFrac, hTW', hDW', List.isEmpty_iff, hdA'e]]
            rw [show (('.' :: dA', rA2 ++ (w ++ b)) : List Char × List Char).2
                = rA2 ++ (w ++ b) from rfl,
              show (('.' :: dA', rA2 ++ (w ++ b)) : List Char × List Char).1
                = '.' :: dA' from rfl]
            obtain ⟨h2, r2, hrA2eq⟩ := List.exists_cons_of_ne_nil hrA2ne
            have hLrA2 : ∀ ch, rA2.getLast? = some ch → ch.isDigit = false ∧ ch ≠ '.' :=
              boundary_suffix rA' rA2 hLrA' dA' hdecomp'
            have hlr2 : rA2.length = r2.length + 1 := by rw [hrA2eq]; rfl
            by_cases hp2 : h2 = '%'
            case pos =>
              subst hp2
              rw [hrA2eq, List.cons_append]
              rw [show takePct ('%' :: (r2 ++ (w ++ b))) = (['%'], r2 ++ (w ++ b)) from by
                simp [takePct]]
              refine List.mem_cons_of_mem _ (ih r2 w b ?_ hw hdig ?_ hR)
              · have hg : (r2 ++ (w ++ b)).length = r2.length + (w.length + b.length) := by
                  rw [List.length_append, List.length_append]
                omega
              · exact boundary_suffix rA2 r2 hLrA2 ['%'] (by rw [hrA2eq]; rfl)
            case neg =>
              rw [hrA2eq, List.cons_append]
              rw [takePct_no (h2 :: (r2 ++ (w ++ b)))
                (fun ch hch => by rw [head?_cons_elim hch]; exact hp2)]
              rw [show ((([] : List Char), h2 :: (r2 ++ (w ++ b)))
                  : List Char × List Char).2 = h2 :: (r2 ++ (w ++ b)) from rfl,
                show ((([] : List Char), h2 :: (r2 ++ (w ++ b)))
                  : List Char × List Char).1 = [] from rfl]
              refine List.mem_cons_of_mem _ ?_
              rw [← List.cons_append, ← hrA2eq]
              refine ih rA2 w b ?_ hw hdig hLrA2 hR
              have hg : (rA2 ++ (w ++ b)).length = rA2.length + (w.length + b.length) := by
                rw [List.length_append, List.length_append]
              omega

theorem mem_scan1 (a w b : List Char)
    (hw : w ≠ []) (hdig : ∀ c ∈ w, c.isDigit = true)
    (hL : ∀ ch, a.getLast? = some ch → ch.isDigit = false ∧ ch ≠ '.')
    (hR : ∀ ch, b.head? = some ch → ch.isDigit = false ∧ ch ≠ '.' ∧ ch ≠ '%') :
    w ∈ scan1 (a ++ (w ++ b)) :=
  scan1F_mem (a ++ (w ++ b)).length a w b le_rfl hw hdig hL hR

theorem mem_extractRawTokens (cs w : List Char) (h : w ∈ scan1 cs) :
    String.mk w ∈ extractRawTokens cs := by
  unfold extractRawTokens
  refine mem_dedupSeen _ [] (String.mk w) ?_ (by simp)
  exact List.mem_map_of_mem String.mk
    (List.mem_append_left _ (List.mem_append_left _ (List.mem_append_left _ h)))

theorem step1_text_only (c : Collab) (t : String)
    (htne : t ≠ "") (hlen : ¬ (pyStrip t.toList).length < 5)
    (hne : extractRawTokens t.toList ≠ []) :
    step1_ocr_extraction c (some t) none
      = .ok (.tokens (extractRawTokens t.toList) (currency_hint t.toList) (round2 0.95)) := by
  unfold step1_ocr_extraction
  simp [pyTruthyBytes, pyTruthyStr, htne, hlen, List.isEmpty_iff, hne]
  rw [if_neg (show ¬(pyStrip t.data).length < 5 from hlen),
    if_neg (show ¬extractRawTokens t.data = [] from hne)]

/-! ### Claim theorems -/

set_option maxRecDepth 16000

/-- Claim C1, counterexample: on the four-line bill with the LLM
unavailable, no amount at all is labelled `paid` (the keyword `amount` of
the higher-priority category `total_bill` matches the line
`Amount Paid: Rs 2000`, and `total` matches `940` inside `2940`), so the
claimed entries `{paid, 2000}` and `{due, 940}` are absent. -/
theorem C1_end_to_end_counterexample :
    (reportAmounts (process_document noCollab (some text4) none)).all
        (fun fa => !(fa.type == "paid")) = true
    ∧ (reportAmounts (process_document noCollab (some text4) none)).all
        (fun fa => !(fa.type == "due")) = true := by
  constructor <;> with_unfolding_all rfl

/-- Claim C1, amended: on the four-line bill with the LLM unavailable,
`process_document` returns currency INR, status ok, confidence 0.70, and
the amounts `consultation_fee 500`, `total_bill 2940`, `total_bill 2000`,
`total_bill 940`, each with a non-"unknown" provenance quoting the first
line that contains its digits (so `940` quotes the `Total Amount` line). -/
theorem C1_end_to_end :
    process_document noCollab (some text4) none
      = .ok (.report "INR"
          [⟨"consultation_fee", 500, "text: \x27Doctor Consultation Fee: Rs 500\x27"⟩,
           ⟨"total_bill", 2940, "text: \x27Total Amount: Rs 2940\x27"⟩,
           ⟨"total_bill", 2000, "text: \x27Amount Paid: Rs 2000\x27"⟩,
           ⟨"total_bill", 940, "text: \x27Total Amount: Rs 2940\x27"⟩]
          "ok" 0.70) := by
  with_unfolding_all rfl

/-- Claim C2, counterexample: the claim fails without further hypotheses —
for `"12"` (trimmed length < 5) step 1 is terminal and returns no token
list; for `"ab 5% cd"` the only token is `5%`, which normalization drops;
for `"ab 0 cd"` the value 0 is dropped; for `"x 1.5 yz"` the runs `1` and
`5` are absorbed into the decimal token `1.5`. -/
theorem C2_digit_run_counterexample :
    step1_ocr_extraction noCollab (some "12") none
        = .ok (.noAmounts "no_amounts_found" "document too noisy")
    ∧ extractRawTokens (String.toList "ab 5% cd") = ["5%"]
    ∧ (step2_normalization ["5%"]).normalized_amounts = []
    ∧ extractRawTokens (String.toList "ab 0 cd") = ["0"]
    ∧ (step2_normalization ["0"]).normalized_amounts = []
    ∧ extractRawTokens (String.toList "x 1.5 yz") = ["1.5"]
    ∧ (step2_normalization ["1.5"]).normalized_amounts = [3 / 2] := by
  refine ⟨rfl, rfl, ?_, rfl, ?_, rfl, ?_⟩ <;> with_unfolding_all rfl

/-- Claim C2, amended: for every text of trimmed length at least 5
containing a maximal digit run of positive value whose left neighbour is
neither a digit nor `.` and whose right neighbour is neither a digit nor
`.` nor `%`, TokenExtraction returns a non-empty raw-token list and
Normalization on it contains the value of that run. -/
theorem C2_digit_run_extraction (c : Collab) (t : String) (a w b : List Char)
    (ht : t.toList = a ++ (w ++ b))
    (hw : w ≠ []) (hdig : ∀ ch ∈ w, ch.isDigit = true)
    (hpos : 0 < natOf w)
    (hlen : 5 ≤ (pyStrip t.toList).length)
    (hL : ∀ ch, a.getLast? = some ch → ch.isDigit = false ∧ ch ≠ '.')
    (hR : ∀ ch, b.head? = some ch → ch.isDigit = false ∧ ch ≠ '.' ∧ ch ≠ '%') :
    extractRawTokens t.toList ≠ []
    ∧ ((natOf w : ℚ)) ∈ (step2_normalization (extractRawTokens t.toList)).normalized_amounts
    ∧ step1_ocr_extraction c (some t) none
        = .ok (.tokens (extractRawTokens t.toList) (currency_hint t.toList) (round2 0.95)) := by
  have hmem1 : w ∈ scan1 t.toList := by rw [ht]; exact mem_scan1 a w b hw hdig hL hR
  have htok : String.mk w ∈ extractRawTokens t.toList := mem_extractRawTokens _ _ hmem1
  have hne : extractRawTokens t.toList ≠ [] := List.ne_nil_of_mem htok
  have htne : t ≠ "" := by
    intro h
    rw [h] at ht
    exact hw (List.append_eq_nil.mp (List.append_eq_nil.mp ht.symm).2).1
  have hvmem : ((natOf w : ℚ)) ∈ normalizeTokens (extractRawTokens t.toList) := by
    refine mem_normalizeTokens _ (String.mk w) _ htok ?_ ?_ ?_
    · exact containsChar_false_of_digits w hdig
    · rw [show (String.mk w).toList = w from rfl, cleanChars_of_digits w hdig]
      exact pyFloat_digits w hw hdig
    · exact_mod_cast hpos
  exact ⟨hne, hvmem, step1_text_only c t htne (Nat.not_lt.mpr hlen) hne⟩

/-- Witness for C2 on the concrete text `ab 12 cd` and its run `12`. -/
theorem C2_digit_run_extraction_witness :
    extractRawTokens (String.toList "ab 12 cd") ≠ []
    ∧ ((natOf (String.toList "12") : ℚ))
        ∈ (step2_normalization (extractRawTokens (String.toList "ab 12 cd"))).normalized_amounts := by
  have h := C2_digit_run_extraction noCollab "ab 12 cd"
    (String.toList "ab ") (String.toList "12") (String.toList " cd")
    rfl (by decide) (by decide) (by decide) (by decide)
    (by
      intro ch hch
      have h0 : (String.toList "ab ").getLast? = some ' ' := rfl
      rw [h0] at hch
      obtain rfl : ch = ' ' := (Option.some.inj hch).symm
      exact ⟨by decide, by decide⟩)
    (by
      intro ch hch
      have h0 : (String.toList " cd").head? = some ' ' := rfl
      rw [h0] at hch
      obtain rfl : ch = ' ' := (Option.some.inj hch).symm
      exact ⟨by decide, by decide, by decide⟩)
  exact ⟨h.1, h.2.1⟩

/-- Claim C3: the fallback classifier labels each amount with the first
category, in the fixed priority order of the keyword table, for which some
keyword matches near the amount\x27s digit string (same newline-free
segment, before or after); unmatched amounts are labelled `other`; the
confidence is exactly 0.70; and for text `Total Amount Rs 2940` with
amount 2940 the label is `total_bill`. -/
theorem C3_fallback_priority :
    ∀ (text : String) (amounts : List ℚ),
      ((fallback_classification text amounts).amounts
        = amounts.map (fun a =>
            ⟨specFirstCategory (text.toList.map Char.toLower) (pyIntStr a), a⟩)
       ∧ (fallback_classification text amounts).confidence = 0.70)
      ∧ (fallback_classification "Total Amount Rs 2940" [2940]).amounts
          = [⟨"total_bill", (2940 : ℚ)⟩] := by
  intro text amounts
  refine ⟨⟨?_, rfl⟩, by with_unfolding_all rfl⟩
  unfold fallback_classification
  apply List.map_congr_left
  intro a _
  rw [classifyFirst_eq_find]
  unfold specFirstCategory
  cases keywordsTable.find?
      (fun p => p.2.any (fun term => proxMatch term.toList (pyIntStr a)
        (text.toList.map Char.toLower))) with
  | none => rfl
  | some p => rfl

/-- Claim C4: for every text whose trimmed length is below 5 (no image
supplied), the pipeline returns the terminal status `no_amounts_found`
with reason `document too noisy`; the result is exactly the step-1 dict,
returned unchanged for every collaborator bundle, so the remaining stages
never run. -/
theorem C4_short_document :
    ∀ (c : Collab) (text : String),
      (pyStrip text.toList).length < 5 →
      process_document c (some text) none
          = .ok (.terminal "no_amounts_found" "document too noisy")
      ∧ step1_ocr_extraction c (some text) none
          = .ok (.noAmounts "no_amounts_found" "document too noisy") := by
  intro c text h
  have h1 : step1_ocr_extraction c (some text) none
      = .ok (.noAmounts "no_amounts_found" "document too noisy") := by
    unfold step1_ocr_extraction
    simp [pyTruthyBytes, h]
    intro _ h5
    exact absurd h (Nat.not_lt.mpr h5)
  refine ⟨?_, h1⟩
  unfold process_document
  rw [h1]

/-- Witness for C4 at the two-character text `12`. -/
theorem C4_short_document_witness :
    process_document noCollab (some "12") none
      = .ok (.terminal "no_amounts_found" "document too noisy") :=
  (C4_short_document noCollab "12" (by decide)).1

/-- Claim C5: normalization maps the clean token `500` to the integer 500,
and repairs the OCR confusables `5OO` to 500 and `l200` to 1200 (each with
the fixed confidence 0.82). -/
theorem C5_normalization_examples :
    step2_normalization ["500"] = ⟨[500], 0.82⟩
    ∧ step2_normalization ["5OO"] = ⟨[500], 0.82⟩
    ∧ step2_normalization ["l200"] = ⟨[1200], 0.82⟩ := by
  refine ⟨?_, ?_, ?_⟩ <;> with_unfolding_all rfl

/-- Claim C6: every value produced by normalization is strictly positive;
tokens containing `%` contribute nothing (filtering them away first gives
the identical result); and the input token `5%` is dropped entirely. -/
theorem C6_normalization_invariant :
    ∀ (tokens : List String),
      ((∀ v ∈ (step2_normalization tokens).normalized_amounts, 0 < v)
       ∧ step2_normalization tokens
           = step2_normalization (tokens.filter (fun t => !(containsChar '%' t.toList))))
      ∧ (step2_normalization ["5%"]).normalized_amounts = [] := by
  intro tokens
  refine ⟨⟨?_, ?_⟩, rfl⟩
  · intro v hv
    exact normalizeTokens_pos tokens v hv
  · unfold step2_normalization
    rw [normalizeTokens_filter]

/-- Witness for C6 at the token list `["500"]`. -/
theorem C6_normalization_invariant_witness : (0 : ℚ) < 500 :=
  ((C6_normalization_invariant ["500"]).1.1 500 (by with_unfolding_all decide))

/-- Claim C7: the currency hint tests the INR, USD, EUR patterns in that
order on the lowered text, first match wins, INR is the default when none
match; in particular any text containing the rupee sign (for instance one
also containing a dollar sign) yields INR. -/
theorem C7_currency_priority :
    ∀ (cs : List Char),
      ((matchINR (cs.map Char.toLower) = true → currency_hint cs = "INR")
       ∧ (matchINR (cs.map Char.toLower) = false → matchUSD (cs.map Char.toLower) = true →
            currency_hint cs = "USD")
       ∧ (matchINR (cs.map Char.toLower) = false → matchUSD (cs.map Char.toLower) = false →
            matchEUR (cs.map Char.toLower) = true → currency_hint cs = "EUR")
       ∧ (matchINR (cs.map Char.toLower) = false → matchUSD (cs.map Char.toLower) = false →
            matchEUR (cs.map Char.toLower) = false → currency_hint cs = "INR"))
      ∧ (containsChar '₹' cs = true → currency_hint cs = "INR") := by
  intro cs
  constructor
  · refine ⟨?_, ?_, ?_, ?_⟩
    · intro h1
      unfold currency_hint
      simp [h1]
    · intro h1 h2
      unfold currency_hint
      simp [h1, h2]
    · intro h1 h2 h3
      unfold currency_hint
      simp [h1, h2, h3]
    · intro h1 h2 h3
      unfold currency_hint
      simp [h1, h2, h3]
  · intro h
    have hinr : matchINR (cs.map Char.toLower) = true := by
      unfold matchINR
      have hm := containsChar_map_self Char.toLower '₹' (by decide) cs h
      simp [hm]
    unfold currency_hint
    simp [hinr]

/-- Witness for C7 at a text containing both currency symbols. -/
theorem C7_currency_priority_witness :
    currency_hint (String.toList "cost $5 or ₹5") = "INR" :=
  (C7_currency_priority (String.toList "cost $5 or ₹5")).2 (by decide)

/-- Claim C8: the final assembly carries status `ok`, passes the currency
through, and attaches to each classified amount the provenance prescribed
by the specification: a quoted, trimmed, at-most-50-character excerpt of
the first line containing the amount\x27s integer textual form, or
`unknown` when no line matches. -/
theorem C8_provenance :
    ∀ (text currency : String) (classified : List Classified),
      (step4_final_output text currency classified).status = "ok"
      ∧ (step4_final_output text currency classified).currency = currency
      ∧ (step4_final_output text currency classified).amounts
          = classified.map (fun item =>
              ⟨item.type, item.value, specProvenance text item.value⟩) := by
  intro text currency classified
  refine ⟨rfl, rfl, ?_⟩
  unfold step4_final_output
  apply List.map_congr_left
  intro item _
  rw [findSourceLine_eq_find]
  rfl

/-- Claim C9: with a non-empty amount list, any failure of the LLM path
(collaborator error, no brace span in the response, or unusable JSON in
the extracted span) makes step 3 return exactly the result of the
rule-based fallback classifier instead of raising. -/
theorem C9_llm_fallback :
    ∀ (c : Collab) (text : String) (amounts : List ℚ),
      amounts ≠ [] → llmPathFails c text amounts →
      step3_classification c text amounts = fallback_classification text amounts := by
  intro c text amounts hne hf
  unfold step3_classification
  rw [if_neg (by simp [List.isEmpty_iff, hne])]
  unfold llmPathFails at hf
  cases hl : c.llm (promptFor text amounts) with
  | error e => simp only [hl]
  | ok resp =>
    rw [hl] at hf
    have hf2 : (match extractJsonSpan resp with
        | none => True
        | some span => c.jparse span = none) := hf
    cases hs : extractJsonSpan resp with
    | none => simp only [hl, hs]
    | some span =>
      rw [hs] at hf2
      have hf3 : c.jparse span = none := hf2
      simp only [hl, hs, hf3]

/-- Witness for C9 with the always-failing collaborator bundle. -/
theorem C9_llm_fallback_witness :
    step3_classification noCollab "bill" [1] = fallback_classification "bill" [1] :=
  C9_llm_fallback noCollab "bill" [1] (by with_unfolding_all decide) True.intro

/-- Claim C10, counterexample: with both a text and an image supplied, the
token 777 comes from the OCR text, but classification and provenance run
on the supplied text: the label is `other` and the provenance `unknown`,
whereas classifying against the OCR text would give `total_bill` (with the
OCR line as provenance), so the supplied text is not discarded for the
whole pipeline. -/
theorem C10_image_text_counterexample :
    process_document ocr777Collab (some "Medicine 555 pharmacy") (some [1])
        = .ok (.report "INR" [⟨"other", 777, "unknown"⟩] "ok" 0.70)
    ∧ (fallback_classification "Total 777 bill" [777]).amounts
        = [⟨"total_bill", 777⟩] := by
  constructor <;> with_unfolding_all rfl

/-- Claim C10, amended: when both a (non-empty) text and a (non-empty)
image are supplied, step 1 ignores the supplied text entirely (its result
equals the one for any other supplied text), while the rest of the
pipeline - classification and provenance - runs on the supplied text, as
spelled out by `processBothTexts`. -/
theorem C10_text_usage :
    ∀ (c : Collab) (t : String) (img : List Nat) (text2 : Option String),
      t ≠ "" → img ≠ [] →
      step1_ocr_extraction c (some t) (some img) = step1_ocr_extraction c text2 (some img)
      ∧ process_document c (some t) (some img) = processBothTexts c t img := by
  intro c t img text2 ht himg
  have himgB : pyTruthyBytes (some img) = true := by
    cases img with
    | nil => exact absurd rfl himg
    | cons x xs => rfl
  have hA : ∀ (x : Option String),
      step1_ocr_extraction c x (some img) = step1_ocr_extraction c none (some img) := by
    intro x
    unfold step1_ocr_extraction
    rw [himgB]
    rfl
  constructor
  · exact (hA (some t)).trans (hA text2).symm
  · have htB : pyTruthyStr (some t) = true := by
      simp [pyTruthyStr, ht]
    unfold process_document processBothTexts
    rw [hA (some t)]
    cases hs : step1_ocr_extraction c none (some img) with
    | error e => rfl
    | ok r =>
      cases r with
      | noAmounts st rs => rfl
      | tokens raws cur conf =>
        simp only [himgB, htB]
        rfl

/-- Witness for C10 at the concrete collaborators and inputs of the
counterexample. -/
theorem C10_text_usage_witness :
    step1_ocr_extraction ocr777Collab (some "Medicine 555 pharmacy") (some [1])
        = step1_ocr_extraction ocr777Collab none (some [1])
    ∧ process_document ocr777Collab (some "Medicine 555 pharmacy") (some [1])
        = processBothTexts ocr777Collab "Medicine 555 pharmacy" [1] :=
  C10_text_usage ocr777Collab "Medicine 555 pharmacy" [1] none (by decide) (by decide)

end AmountDetection
